import Mathlib

set_option maxRecDepth 4000

/-!
Verification development for the Melbourne Instruments `fpga_config` utility
(`src/src/main.cpp`).  The program bit-bangs the Altera/Intel Passive Serial
configuration protocol over Raspberry Pi GPIO pins.  We give a shallow
embedding of its pure control logic:

* GPIO register writes (`SET_GPIO_PIN` / `CLR_GPIO_PIN`) become trace events;
* `_transfer_data` becomes a function from the exit-flag history (the value of
  `exit_flag` at the n-th read performed by the loops) and the loaded
  bitstream to the emitted event trace;
* `_init_gpio_pin` becomes a transformer on the mapped register file
  (a `Nat`-indexed family of 32-bit words, represented as `Nat` values
  `< 2 ^ 32`);
* `main`, `_config_fpga1`, `_config_fpga2`, `_open_and_setup_gpio`,
  `_print_board_rev_info` and `_close_gpio` become functions from the
  environment (mmap success, register contents, file contents, flag history)
  to a trace of actions plus the process exit code.
-/

/-! ### Constants (main.cpp lines 24-45) -/

def NUM_CONSECUTIVE_GPIO_WRITES : Nat := 5

def FPGA2_NCE_GPIO_PIN : Nat := 2

def DCLK_GPIO_PIN : Nat := 3

def DATA0_GPIO_PIN : Nat := 16

def NCONFIG_GPIO_PIN : Nat := 17

def BOARD_REV_GPIO_PIN_1 : Nat := 20

def BOARD_REV_GPIO_PIN_2 : Nat := 21

def GPIO_PULL_BASE_OFFSET : Nat := 0xE4

/-! ### GPIO write events

`SET_GPIO_PIN(pin)` / `CLR_GPIO_PIN(pin)` are single writes to the set/clear
registers; each becomes one trace event. -/

inductive GpioEvent where
  | setPin (pin : Nat)
  | clrPin (pin : Nat)
deriving DecidableEq, Repr

/-- `SET_DCLK_PIN()` (main.cpp line 51): `NUM_CONSECUTIVE_GPIO_WRITES`
consecutive writes of the set register for the clock pin. -/
def SET_DCLK_PIN : List GpioEvent :=
  List.replicate NUM_CONSECUTIVE_GPIO_WRITES (GpioEvent.setPin DCLK_GPIO_PIN)

/-- `CLR_DCLK_PIN()` (main.cpp line 53). -/
def CLR_DCLK_PIN : List GpioEvent :=
  List.replicate NUM_CONSECUTIVE_GPIO_WRITES (GpioEvent.clrPin DCLK_GPIO_PIN)

/-- One full clock pulse: rising edge then falling edge, each with the
5-fold redundant write (main.cpp lines 337-341 and 351-355). -/
def clockPulse : List GpioEvent := SET_DCLK_PIN ++ CLR_DCLK_PIN

/-- `bit = (byte >> i) & 0x01` (main.cpp line 327). -/
def bitOf (byte i : Nat) : Nat := (byte >>> i) &&& 1

/-- The data-pin write for one bit (main.cpp lines 328-335):
`if (bit) SET_GPIO_PIN(DATA0) else CLR_GPIO_PIN(DATA0)`. -/
def dataWrite (bit : Nat) : GpioEvent :=
  if bit ≠ 0 then GpioEvent.setPin DATA0_GPIO_PIN else GpioEvent.clrPin DATA0_GPIO_PIN

/-- The events of one loop iteration of the inner bit loop: the data-pin
write followed by one clock pulse. -/
def bitCell (bit : Nat) : List GpioEvent := dataWrite bit :: clockPulse

/-- The events emitted for one byte: the 8 bits, least-significant first
(main.cpp lines 323-342). -/
def sendByte (byte : Nat) : List GpioEvent :=
  (List.range 8).flatMap (fun i => bitCell (bitOf byte i))

/-- The streaming loop of `_transfer_data` (main.cpp lines 318-343).
`flag n` is the value `exit_flag` has at the n-th read the function performs
(the loop condition reads `exit_flag` once per iteration, before the bounds
check).  Returns the emitted events together with the next read index. -/
def streamLoop (flag : Nat → Bool) : Nat → List Nat → List GpioEvent × Nat
  | n, [] => ([], n + 1)
  | n, byte :: rest =>
      if flag n then ([], n + 1)
      else
        let r := streamLoop flag (n + 1) rest
        (sendByte byte ++ r.1, r.2)

/-- The tail-clock loop of `_transfer_data` (main.cpp lines 348-356):
`int dclk_count = 10; while (!exit_flag && dclk_count--) { pulse }`.
The flag is read before each of the up-to-10 pulses. -/
def tailLoop (flag : Nat → Bool) : Nat → Nat → List GpioEvent
  | _, 0 => []
  | n, count + 1 =>
      if flag n then [] else clockPulse ++ tailLoop flag (n + 1) count

/-- `_transfer_data` (main.cpp lines 314-357) as an event trace: the
streaming loop over the loaded bitstream followed by the tail-clock loop
with `dclk_count = 10`. -/
def _transfer_data (flag : Nat → Bool) (bitstream : List Nat) : List GpioEvent :=
  let r := streamLoop flag 0 bitstream
  r.1 ++ tailLoop flag r.2 10

/-! ### Trace observers -/

/-- Number of rising-edge writes (set-register writes of the clock pin)
in a trace.  Each logical clock pulse contributes exactly
`NUM_CONSECUTIVE_GPIO_WRITES = 5` of these. -/
def countRises (evs : List GpioEvent) : Nat :=
  evs.countP (fun e => decide (e = GpioEvent.setPin DCLK_GPIO_PIN))

/-- Number of data-pin writes (set or clear of `DATA0`) in a trace. -/
def countDataWrites (evs : List GpioEvent) : Nat :=
  evs.countP (fun e =>
    match e with
    | GpioEvent.setPin p => decide (p = DATA0_GPIO_PIN)
    | GpioEvent.clrPin p => decide (p = DATA0_GPIO_PIN))

/-- The sequence of logical values driven onto the data pin, in trace
order (1 for a set-register write of `DATA0`, 0 for a clear). -/
def dataValues (evs : List GpioEvent) : List Nat :=
  evs.filterMap (fun e =>
    match e with
    | GpioEvent.setPin p => if p = DATA0_GPIO_PIN then some 1 else none
    | GpioEvent.clrPin p => if p = DATA0_GPIO_PIN then some 0 else none)

/-- The bits of a bitstream in the order the engine drives them:
per byte, bits 0..7 (least-significant first). -/
def bitsOf (bs : List Nat) : List Nat :=
  bs.flatMap (fun byte => (List.range 8).map (bitOf byte))

/-- The constantly-false exit-flag history (cancellation never requested). -/
def neverSet : Nat → Bool := fun _ => false

/-! ### The mapped GPIO register file and `_init_gpio_pin`

`gpio_port` points at an array of 32-bit registers; we model it as a function
from word index to register value (well-formed states keep every value
`< 2 ^ 32`).  C's 32-bit `~x` becomes `0xFFFFFFFF ^^^ x`. -/

abbrev Regs := Nat → Nat

def updateReg (regs : Regs) (idx v : Nat) : Regs :=
  fun j => if j = idx then v else regs j

def mask32 : Nat := 0xFFFFFFFF

/-- `(GPIO_PULL_BASE_OFFSET / sizeof(uint32_t)) + ((pin / 16) * 4)`
(main.cpp line 220). -/
def pullRegOffset (pin : Nat) : Nat := GPIO_PULL_BASE_OFFSET / 4 + pin / 16 * 4

/-- `(pin % 16) * 2` (main.cpp line 221). -/
def pullBitsOffset (pin : Nat) : Nat := pin % 16 * 2

/-- `_init_gpio_pin` (main.cpp lines 208-225) as a register-file
transformer.  Output: OR the low bit of the pin's 3-bit function-select
field.  Input: clear the 3-bit field, then clear the pin's 2-bit
pull-control field, then set its low bit (pull-up). -/
def _init_gpio_pin (pin : Nat) (output : Bool) (regs : Regs) : Regs :=
  if output then
    updateReg regs (pin / 10) (regs (pin / 10) ||| (1 <<< (pin % 10 * 3)))
  else
    let r1 := updateReg regs (pin / 10)
      (regs (pin / 10) &&& (mask32 ^^^ (7 <<< (pin % 10 * 3))))
    let r2 := updateReg r1 (pullRegOffset pin)
      (r1 (pullRegOffset pin) &&& (mask32 ^^^ (3 <<< pullBitsOffset pin)))
    updateReg r2 (pullRegOffset pin)
      (r2 (pullRegOffset pin) ||| (1 <<< pullBitsOffset pin))

/-- The 3-bit function-select field of a pin, read back from the register
file (register `pin / 10`, bits `(pin % 10) * 3 .. + 2`). -/
def fselField (regs : Regs) (pin : Nat) : Nat :=
  (regs (pin / 10) >>> (pin % 10 * 3)) &&& 7

/-- The 2-bit pull-control field of a pin (BCM2711 `GPIO_PUP_PDN_CNTRL`
bank): `0` = none/neutral, `1` = pull-up, `2` = pull-down. -/
def pullField (regs : Regs) (pin : Nat) : Nat :=
  (regs (pullRegOffset pin) >>> pullBitsOffset pin) &&& 3

/-! ### Board revision detection -/

inductive BoardRev where
  | A | B | C | D
deriving DecidableEq, Repr

/-- `RD_GPIO_PIN(pin)` (main.cpp line 48): `((*gpio_rd_reg) >> pin) & 0x01`,
applied to the value `rdReg` of the read register. -/
def RD_GPIO_PIN (rdReg pin : Nat) : Nat := (rdReg >>> pin) &&& 1

/-- The 2-bit code of `_print_board_rev_info` (main.cpp line 393):
`RD_GPIO_PIN(pin1) + (RD_GPIO_PIN(pin2) << 1)`. -/
def boardRevCode (rdReg : Nat) : Nat :=
  RD_GPIO_PIN rdReg BOARD_REV_GPIO_PIN_1 + (RD_GPIO_PIN rdReg BOARD_REV_GPIO_PIN_2 <<< 1)

/-- The `switch` of `_print_board_rev_info` (main.cpp lines 394-414):
0 → Rev D, 1 → Rev B, 2 → Rev C, 3 → Rev A, default → no message. -/
def boardRevLabel : Nat → Option BoardRev
  | 0 => some BoardRev.D
  | 1 => some BoardRev.B
  | 2 => some BoardRev.C
  | 3 => some BoardRev.A
  | _ => none

/-! ### The orchestrator (`main`, `_config_fpga1`, `_config_fpga2`)

We model the `MELBINST_PI_HAT == 0` build (two FPGA targets).  A run is a
trace of actions: GPIO writes, pin configuration, pin reads, buffer
allocation/free, window unmap and console messages.  `new uint8_t[n]`
cannot return null (it throws), so the `!binary_data` branches at
main.cpp lines 244 and 286 are dead and allocation always succeeds in the
model. -/

inductive Msg where
  | appInfo
  | gpioSetupOk
  | gpioSetupError
  | boardRev (r : BoardRev)
  | cantOpenFpga1
  | fpga1Size (n : Nat)
  | fpga1Configured
  | cantOpenFpga2
  | fpga2Size (n : Nat)
  | fpga2Configured
  | gpioClosed
  | completed
deriving DecidableEq, Repr

inductive Act where
  | gpioWrite (e : GpioEvent)
  | configPin (pin : Nat) (output : Bool)
  | readPin (pin : Nat)
  | allocBuffer (size : Nat)
  | freeBuffer
  | unmapWindow
  | message (m : Msg)
deriving DecidableEq, Repr

/-- `_config_fpga1` (main.cpp lines 230-266).  `file` is the content of the
FPGA1 binary file, `none` when it cannot be opened.  Note the final
`"FPGA1 configured"` line (line 265) is printed unconditionally after
`_transfer_data` returns. -/
def _config_fpga1 (file : Option (List Nat)) (flag : Nat → Bool) : List Act :=
  match file with
  | none => [Act.message Msg.cantOpenFpga1]
  | some bs =>
      Act.allocBuffer bs.length ::
      Act.message (Msg.fpga1Size bs.length) ::
      Act.gpioWrite (GpioEvent.setPin NCONFIG_GPIO_PIN) ::
      ((_transfer_data flag bs).map Act.gpioWrite ++ [Act.message Msg.fpga1Configured])

/-- `_config_fpga2` (main.cpp lines 272-308): same as `_config_fpga1` but
selecting the second FPGA by driving its `nCE` pin low. -/
def _config_fpga2 (file : Option (List Nat)) (flag : Nat → Bool) : List Act :=
  match file with
  | none => [Act.message Msg.cantOpenFpga2]
  | some bs =>
      Act.allocBuffer bs.length ::
      Act.message (Msg.fpga2Size bs.length) ::
      Act.gpioWrite (GpioEvent.clrPin FPGA2_NCE_GPIO_PIN) ::
      ((_transfer_data flag bs).map Act.gpioWrite ++ [Act.message Msg.fpga2Configured])

/-- `_open_and_setup_gpio` (main.cpp lines 137-172).  When the mapping
succeeds: configure the required pins, set the initial pin states and
report; otherwise only report the error.  (`gpio_port` is null exactly when
`mmapOk` is false.) -/
def _open_and_setup_gpio (mmapOk : Bool) : List Act :=
  if mmapOk then
    [Act.configPin NCONFIG_GPIO_PIN true,
     Act.configPin FPGA2_NCE_GPIO_PIN true,
     Act.configPin DCLK_GPIO_PIN true,
     Act.configPin BOARD_REV_GPIO_PIN_1 false,
     Act.configPin BOARD_REV_GPIO_PIN_2 false,
     Act.gpioWrite (GpioEvent.setPin FPGA2_NCE_GPIO_PIN),
     Act.gpioWrite (GpioEvent.clrPin DCLK_GPIO_PIN),
     Act.gpioWrite (GpioEvent.clrPin DATA0_GPIO_PIN),
     Act.gpioWrite (GpioEvent.clrPin NCONFIG_GPIO_PIN),
     Act.message Msg.gpioSetupOk]
  else
    [Act.message Msg.gpioSetupError]

/-- `_print_board_rev_info` (main.cpp lines 391-415).  It reads the two
board-revision strap pins through `RD_GPIO_PIN` **unconditionally** — the
source has no null check on the register window — and prints the label for
the 2-bit code (`default:` prints nothing). -/
def _print_board_rev_info (rdReg : Nat) : List Act :=
  Act.readPin BOARD_REV_GPIO_PIN_1 ::
  Act.readPin BOARD_REV_GPIO_PIN_2 ::
  (match boardRevLabel (boardRevCode rdReg) with
   | some r => [Act.message (Msg.boardRev r)]
   | none => [])

/-- `_close_gpio` (main.cpp lines 362-376): when the window is mapped,
drive clock and data low, unmap, and report; otherwise a no-op. -/
def _close_gpio (mmapOk : Bool) : List Act :=
  if mmapOk then
    [Act.gpioWrite (GpioEvent.clrPin DCLK_GPIO_PIN),
     Act.gpioWrite (GpioEvent.clrPin DATA0_GPIO_PIN),
     Act.unmapWindow,
     Act.message Msg.gpioClosed]
  else []

/-- The run environment: whether mapping the register window succeeded, the
value of the pin-read register, the contents of the two bitstream files
(`none` = cannot be opened), and the exit-flag history seen by each
transfer. -/
structure Env where
  mmapOk : Bool
  rdReg : Nat
  fpga1File : Option (List Nat)
  fpga2File : Option (List Nat)
  flag1 : Nat → Bool
  flag2 : Nat → Bool

/-- `main` (main.cpp lines 84-132), `MELBINST_PI_HAT == 0` build: banner,
GPIO setup, board-revision report (unconditional), then — only if the
window is mapped — FPGA1 config, free of FPGA1's buffer (guarded by
`binary_data != 0`, i.e. by the FPGA1 file having been opened), FPGA2
config; then the final guarded free (`binary_data != 0` there iff the FPGA2
buffer was allocated), `_close_gpio`, completion message and `return 0`. -/
def mainRun (env : Env) : List Act × Nat :=
  (Act.message Msg.appInfo ::
    (_open_and_setup_gpio env.mmapOk ++
     _print_board_rev_info env.rdReg ++
     (if env.mmapOk then
        _config_fpga1 env.fpga1File env.flag1 ++
        (if env.fpga1File.isSome then [Act.freeBuffer] else []) ++
        _config_fpga2 env.fpga2File env.flag2
      else []) ++
     (if env.mmapOk && env.fpga2File.isSome then [Act.freeBuffer] else []) ++
     _close_gpio env.mmapOk ++
     [Act.message Msg.completed]),
   0)

/-- Number of `delete [] binary_data` executions in a run. -/
def countFrees : List Act → Nat
  | [] => 0
  | Act.freeBuffer :: rest => countFrees rest + 1
  | _ :: rest => countFrees rest

/-- Number of buffer allocations (`new uint8_t[...]`) in a run. -/
def countAllocs : List Act → Nat
  | [] => 0
  | Act.allocBuffer _ :: rest => countAllocs rest + 1
  | _ :: rest => countAllocs rest

/-! ### Loop lemmas -/

/-- If the flag is false at every read the streaming loop performs, the loop
emits every byte of the bitstream and performs `length + 1` reads. -/
theorem streamLoop_of_false (flag : Nat → Bool) :
    ∀ (bs : List Nat) (n : Nat), (∀ i : Nat, i < n + bs.length + 1 → flag i = false) →
    streamLoop flag n bs = (bs.flatMap sendByte, n + bs.length + 1) := by
  intro bs
  induction bs with
  | nil => intro n h; simp [streamLoop]
  | cons b rest ih =>
      intro n h
      have h0 : flag n = false := h n (by simp; omega)
      have hrec := ih (n + 1) (fun i hi => h i (by simp at hi ⊢; omega))
      simp [streamLoop, h0, hrec]
      omega

/-- If the flag is false at the first `m` reads and true at read `m`
(with `m` within the bitstream), the streaming loop emits exactly the first
`m` bytes and stops. -/
theorem streamLoop_cut (flag : Nat → Bool) :
    ∀ (m n : Nat) (bs : List Nat),
    (∀ i : Nat, i < m → flag (n + i) = false) → flag (n + m) = true → m ≤ bs.length →
    streamLoop flag n bs = ((bs.take m).flatMap sendByte, n + m + 1) := by
  intro m
  induction m with
  | zero =>
      intro n bs _ htrue _
      have h0 : flag n = true := by simpa using htrue
      match bs with
      | [] => simp [streamLoop]
      | b :: rest => simp [streamLoop, h0]
  | succ m ih =>
      intro n bs hlow htrue hm
      match bs with
      | [] => simp at hm
      | b :: rest =>
          have h0 : flag n = false := by
            have := hlow 0 (Nat.succ_pos m)
            simpa using this
          have hrec := ih (n + 1) rest
            (fun i hi => by
              have := hlow (i + 1) (by omega)
              rwa [show n + (i + 1) = n + 1 + i by omega] at this)
            (by rwa [show n + 1 + m = n + (m + 1) by omega])
            (by simpa using hm)
          simp [streamLoop, h0, hrec]
          omega

/-- If the flag is false at the first `m` reads of the tail loop and true at
read `m`, the loop emits `min m count` pulses. -/
theorem tailLoop_cut (flag : Nat → Bool) :
    ∀ (count m n : Nat),
    (∀ i : Nat, i < m → flag (n + i) = false) → flag (n + m) = true →
    tailLoop flag n count = (List.replicate (min m count) clockPulse).flatten := by
  intro count
  induction count with
  | zero => intro m n _ _; simp [tailLoop]
  | succ count ih =>
      intro m n hlow htrue
      match m with
      | 0 =>
          have h0 : flag n = true := by simpa using htrue
          simp [tailLoop, h0]
      | m + 1 =>
          have h0 : flag n = false := by
            have := hlow 0 (Nat.succ_pos m)
            simpa using this
          have hrec := ih m (n + 1)
            (fun i hi => by
              have := hlow (i + 1) (by omega)
              rwa [show n + (i + 1) = n + 1 + i by omega] at this)
            (by rwa [show n + 1 + m = n + (m + 1) by omega])
          have hmin : min (m + 1) (count + 1) = min m count + 1 := by omega
          simp [tailLoop, h0, hrec, hmin, List.replicate_succ]

/-- If the flag is false at every read the tail loop performs, all `count`
pulses are emitted. -/
theorem tailLoop_of_false (flag : Nat → Bool) :
    ∀ (count n : Nat), (∀ i : Nat, i < count → flag (n + i) = false) →
    tailLoop flag n count = (List.replicate count clockPulse).flatten := by
  intro count
  induction count with
  | zero => intro n _; simp [tailLoop]
  | succ count ih =>
      intro n hlow
      have h0 : flag n = false := by
        have := hlow 0 (Nat.succ_pos count)
        simpa using this
      have hrec := ih (n + 1)
        (fun i hi => by
          have := hlow (i + 1) (by omega)
          rwa [show n + (i + 1) = n + 1 + i by omega] at this)
      simp [tailLoop, h0, hrec, List.replicate_succ]

/-! ### Counting and data-value lemmas -/

theorem countRises_append (l1 l2 : List GpioEvent) :
    countRises (l1 ++ l2) = countRises l1 + countRises l2 := by
  simp [countRises, List.countP_append]

theorem countDataWrites_append (l1 l2 : List GpioEvent) :
    countDataWrites (l1 ++ l2) = countDataWrites l1 + countDataWrites l2 := by
  simp [countDataWrites, List.countP_append]

theorem dataValues_append (l1 l2 : List GpioEvent) :
    dataValues (l1 ++ l2) = dataValues l1 ++ dataValues l2 := by
  simp [dataValues, List.filterMap_append]

theorem countRises_flatMap {α : Type} (c : Nat) :
    ∀ (l : List α) (f : α → List GpioEvent), (∀ a ∈ l, countRises (f a) = c) →
    countRises (l.flatMap f) = c * l.length := by
  intro l
  induction l with
  | nil => intro f _; simp [countRises]
  | cons a rest ih =>
      intro f h
      rw [List.flatMap_cons, countRises_append, h a (by simp),
        ih f (fun x hx => h x (by simp [hx]))]
      simp [Nat.mul_succ, Nat.mul_add]
      omega

theorem countDataWrites_flatMap {α : Type} (c : Nat) :
    ∀ (l : List α) (f : α → List GpioEvent), (∀ a ∈ l, countDataWrites (f a) = c) →
    countDataWrites (l.flatMap f) = c * l.length := by
  intro l
  induction l with
  | nil => intro f _; simp [countDataWrites]
  | cons a rest ih =>
      intro f h
      rw [List.flatMap_cons, countDataWrites_append, h a (by simp),
        ih f (fun x hx => h x (by simp [hx]))]
      simp [Nat.mul_succ, Nat.mul_add]
      omega

theorem dataValues_flatMap {α : Type} :
    ∀ (l : List α) (f : α → List GpioEvent),
    dataValues (l.flatMap f) = l.flatMap (fun a => dataValues (f a)) := by
  intro l
  induction l with
  | nil => intro f; simp [dataValues]
  | cons a rest ih => intro f; rw [List.flatMap_cons, dataValues_append, ih, List.flatMap_cons]

theorem countRises_bitCell (v : Nat) : countRises (bitCell v) = 5 := by
  by_cases hv : v = 0 <;> simp [bitCell, dataWrite, hv] <;> decide

theorem countDataWrites_bitCell (v : Nat) : countDataWrites (bitCell v) = 1 := by
  by_cases hv : v = 0 <;> simp [bitCell, dataWrite, hv] <;> decide

theorem bitOf_le_one (byte i : Nat) : bitOf byte i ≤ 1 := by
  unfold bitOf
  rw [Nat.and_one_is_mod]
  omega

theorem dataValues_bitCell (v : Nat) (hv : v ≤ 1) : dataValues (bitCell v) = [v] := by
  interval_cases v <;> decide

theorem countRises_sendByte (b : Nat) : countRises (sendByte b) = 40 := by
  have h := countRises_flatMap 5 (List.range 8) (fun i => bitCell (bitOf b i))
    (fun i _ => countRises_bitCell (bitOf b i))
  simpa [sendByte] using h

theorem countDataWrites_sendByte (b : Nat) : countDataWrites (sendByte b) = 8 := by
  have h := countDataWrites_flatMap 1 (List.range 8) (fun i => bitCell (bitOf b i))
    (fun i _ => countDataWrites_bitCell (bitOf b i))
  simpa [sendByte] using h

theorem flatMap_singleton_eq_map {α β : Type} (g : α → β) :
    ∀ l : List α, (l.flatMap fun a => [g a]) = l.map g := by
  intro l
  induction l with
  | nil => simp
  | cons a rest ih => simp [List.flatMap_cons, ih]

theorem dataValues_sendByte (b : Nat) :
    dataValues (sendByte b) = (List.range 8).map (bitOf b) := by
  unfold sendByte
  rw [dataValues_flatMap]
  rw [show (fun i => dataValues (bitCell (bitOf b i))) = (fun i => [bitOf b i]) from
    funext (fun i => dataValues_bitCell (bitOf b i) (bitOf_le_one b i))]
  exact flatMap_singleton_eq_map (bitOf b) (List.range 8)

theorem flatMap_sendByte_eq (bs : List Nat) :
    bs.flatMap sendByte = (bitsOf bs).flatMap bitCell := by
  unfold bitsOf
  induction bs with
  | nil => simp
  | cons b rest ih =>
      rw [List.flatMap_cons, List.flatMap_cons, List.flatMap_append, ← ih]
      congr 1

theorem bitsOf_length (bs : List Nat) : (bitsOf bs).length = 8 * bs.length := by
  induction bs with
  | nil => simp [bitsOf]
  | cons b rest ih =>
      simp only [bitsOf, List.flatMap_cons, List.length_append] at ih ⊢
      simp at ih ⊢
      omega

/-! ### Claim theorems: the Serial Transfer Engine -/

/-- C1: for every non-empty bitstream, when the cancellation flag is never
set, `_transfer_data` emits exactly one data-write/clock-pulse pair per bit
of the image — `8 * len` pairs, in image order — followed by exactly 10
additional tail clock pulses, and terminates (the model is a total
function). -/
theorem c1_transfer_full_run (bs : List Nat) (_h : bs ≠ []) :
    _transfer_data neverSet bs =
      (bitsOf bs).flatMap bitCell ++ (List.replicate 10 clockPulse).flatten ∧
    (bitsOf bs).length = 8 * bs.length ∧
    countDataWrites (_transfer_data neverSet bs) = 8 * bs.length ∧
    countRises (_transfer_data neverSet bs) = 5 * (8 * bs.length + 10) := by
  have hstream := streamLoop_of_false neverSet bs 0 (fun i _ => rfl)
  have htail := tailLoop_of_false neverSet 10 (0 + bs.length + 1) (fun i _ => rfl)
  have htr : _transfer_data neverSet bs =
      bs.flatMap sendByte ++ (List.replicate 10 clockPulse).flatten := by
    simp only [_transfer_data, hstream, htail]
  refine ⟨?_, bitsOf_length bs, ?_, ?_⟩
  · rw [htr, flatMap_sendByte_eq]
  · rw [htr, countDataWrites_append,
      countDataWrites_flatMap 8 bs sendByte (fun b _ => countDataWrites_sendByte b)]
    have hz : countDataWrites ((List.replicate 10 clockPulse).flatten) = 0 := by decide
    omega
  · rw [htr, countRises_append,
      countRises_flatMap 40 bs sendByte (fun b _ => countRises_sendByte b)]
    have hz : countRises ((List.replicate 10 clockPulse).flatten) = 50 := by decide
    omega

theorem c1_transfer_full_run_witness :
    _transfer_data neverSet [1] =
      (bitsOf [1]).flatMap bitCell ++ (List.replicate 10 clockPulse).flatten ∧
    (bitsOf [1]).length = 8 * ([1] : List Nat).length ∧
    countDataWrites (_transfer_data neverSet [1]) = 8 * ([1] : List Nat).length ∧
    countRises (_transfer_data neverSet [1]) = 5 * (8 * ([1] : List Nat).length + 10) :=
  c1_transfer_full_run [1] (by decide)

/-- C2: the engine drives each byte least-significant bit first; per bit it
first drives the data pin, then clocks high, then clocks low; the data
values driven over a full uncancelled run are exactly `bitsOf bs`, and for
the single byte `0b10110010` the first driven bit is 0 and the last is 1. -/
theorem c2_bit_order :
    (∀ bs : List Nat, dataValues (_transfer_data neverSet bs) = bitsOf bs) ∧
    (∀ byte : Nat, sendByte byte =
      (List.range 8).flatMap (fun i =>
        dataWrite (bitOf byte i) ::
          (List.replicate 5 (GpioEvent.setPin DCLK_GPIO_PIN) ++
           List.replicate 5 (GpioEvent.clrPin DCLK_GPIO_PIN)))) ∧
    (dataValues (_transfer_data neverSet [0b10110010])).head? = some 0 ∧
    (dataValues (_transfer_data neverSet [0b10110010])).getLast? = some 1 := by
  refine ⟨?_, fun byte => rfl, by decide, by decide⟩
  intro bs
  have hstream := streamLoop_of_false neverSet bs 0 (fun i _ => rfl)
  have htail := tailLoop_of_false neverSet 10 (0 + bs.length + 1) (fun i _ => rfl)
  simp only [_transfer_data, hstream, htail]
  rw [dataValues_append]
  have h2 : dataValues ((List.replicate 10 clockPulse).flatten) = [] := by decide
  rw [h2, List.append_nil, dataValues_flatMap,
    show (fun a => dataValues (sendByte a)) = (fun byte => (List.range 8).map (bitOf byte)) from
      funext (fun b => dataValues_sendByte b)]
  rfl

/-- C3: if the flag is false at every read up to and including the one
before byte `k` starts, and true at the read before byte `k + 1` would
start, the engine emits exactly bytes `0 .. k` and none of the 10 tail
pulses. -/
theorem c3_cancel_mid_stream (flag : Nat → Bool) (bs : List Nat) (k : Nat)
    (hMono : ∀ i j : Nat, i ≤ j → flag i = true → flag j = true)
    (hlow : ∀ i : Nat, i ≤ k → flag i = false)
    (hset : flag (k + 1) = true)
    (hk : k < bs.length) :
    _transfer_data flag bs = (bs.take (k + 1)).flatMap sendByte ∧
    countRises (_transfer_data flag bs) = 5 * (8 * (k + 1)) := by
  have hstream := streamLoop_cut flag (k + 1) 0 bs
    (fun i hi => by simpa using hlow i (by omega))
    (by simpa using hset) (by omega)
  have htrue2 : flag (0 + (k + 1) + 1 + 0) = true := by
    have := hMono (k + 1) (k + 2) (by omega) hset
    simpa using this
  have htail := tailLoop_cut flag 10 0 (0 + (k + 1) + 1)
    (fun i hi => absurd hi (Nat.not_lt_zero i)) htrue2
  have htr : _transfer_data flag bs = (bs.take (k + 1)).flatMap sendByte := by
    simp only [_transfer_data, hstream, htail]
    simp
  refine ⟨htr, ?_⟩
  rw [htr, countRises_flatMap 40 _ sendByte (fun b _ => countRises_sendByte b),
    List.length_take]
  have hmin : min (k + 1) bs.length = k + 1 := by omega
  rw [hmin]
  ring

theorem c3_cancel_mid_stream_witness :
    _transfer_data (fun i => decide (2 ≤ i)) [10, 20, 30] =
      (([10, 20, 30] : List Nat).take 2).flatMap sendByte ∧
    countRises (_transfer_data (fun i => decide (2 ≤ i)) [10, 20, 30]) = 5 * (8 * 2) :=
  c3_cancel_mid_stream (fun i => decide (2 ≤ i)) [10, 20, 30] 1
    (fun i j hij hi => by
      simp only [decide_eq_true_eq] at hi ⊢
      omega)
    (fun i hi => by
      simp only [decide_eq_false_iff_not]
      omega)
    (by decide) (by decide)

/-- C4 counterexample: with the cancellation flag set before the transfer
starts, the engine aborts without a single hardware write, yet
`_config_fpga1` still emits the "FPGA1 configured" success message
(main.cpp line 265 is unconditional). -/
theorem c4_configured_message_cex :
    _transfer_data (fun _ => true) [5] = [] ∧
    Act.message Msg.fpga1Configured ∈ _config_fpga1 (some [5]) (fun _ => true) := by
  decide

/-- C4 (amended): when the flag is first observed set at read `n`, the
engine performs no hardware write after that observation — it emits exactly
the bytes that started before the observation, plus at most the tail pulses
whose flag check preceded it — and control returns to the Orchestrator,
which still emits the per-target "configured" success message whenever the
bitstream file was opened. -/
theorem c4_abort_no_further_writes (flag : Nat → Bool) (bs : List Nat) (n : Nat)
    (hMono : ∀ i j : Nat, i ≤ j → flag i = true → flag j = true)
    (hlow : ∀ i : Nat, i < n → flag i = false)
    (hset : flag n = true) :
    (n ≤ bs.length → _transfer_data flag bs = (bs.take n).flatMap sendByte) ∧
    (bs.length < n → _transfer_data flag bs =
      bs.flatMap sendByte ++
        (List.replicate (min (n - (bs.length + 1)) 10) clockPulse).flatten) ∧
    Act.message Msg.fpga1Configured ∈ _config_fpga1 (some bs) flag := by
  refine ⟨?_, ?_, by simp [_config_fpga1]⟩
  · intro hn
    have hstream := streamLoop_cut flag n 0 bs
      (fun i hi => by simpa using hlow i hi)
      (by simpa using hset) hn
    have htrue2 : flag (0 + n + 1 + 0) = true := by
      have := hMono n (n + 1) (by omega) hset
      simpa using this
    have htail := tailLoop_cut flag 10 0 (0 + n + 1)
      (fun i hi => absurd hi (Nat.not_lt_zero i)) htrue2
    simp only [_transfer_data, hstream, htail]
    simp
  · intro hn
    have hstream := streamLoop_of_false flag bs 0 (fun i hi => hlow i (by omega))
    have htail := tailLoop_cut flag 10 (n - (bs.length + 1)) (0 + bs.length + 1)
      (fun i hi => hlow (0 + bs.length + 1 + i) (by omega))
      (by
        have harith : 0 + bs.length + 1 + (n - (bs.length + 1)) = n := by omega
        rw [harith]
        exact hset)
    simp only [_transfer_data, hstream, htail]

theorem c4_abort_no_further_writes_witness :
    _transfer_data (fun _ => true) [7] = (([7] : List Nat).take 0).flatMap sendByte ∧
    Act.message Msg.fpga1Configured ∈ _config_fpga1 (some [7]) (fun _ => true) :=
  ⟨(c4_abort_no_further_writes (fun _ => true) [7] 0 (fun _ _ _ h => h)
      (fun i hi => absurd hi (Nat.not_lt_zero i)) rfl).1 (by decide),
   (c4_abort_no_further_writes (fun _ => true) [7] 0 (fun _ _ _ h => h)
      (fun i hi => absurd hi (Nat.not_lt_zero i)) rfl).2.2⟩

/-- C10: for the empty bitstream with the flag never set, the engine emits
zero data-bit/clock-pulse pairs but the full 10-pulse tail, terminates, and
the Orchestrator still reports the target as configured. -/
theorem c10_empty_bitstream :
    _transfer_data neverSet [] = (List.replicate 10 clockPulse).flatten ∧
    countDataWrites (_transfer_data neverSet []) = 0 ∧
    countRises (_transfer_data neverSet []) = 5 * 10 ∧
    Act.message Msg.fpga1Configured ∈ _config_fpga1 (some []) neverSet := by
  refine ⟨by decide, by decide, by decide, ?_⟩
  simp [_config_fpga1]

/-! ### Claim theorems: board revision, orchestrator -/

/-- C6: the detector forms the 2-bit code `pin1 | (pin2 << 1)` — equal to
`pin1 + 2 * pin2` — from the two strap-pin reads, and maps
0 → Rev D, 1 → Rev B, 2 → Rev C, 3 → Rev A, for every combination of the
two pin values. -/
theorem c6_board_rev_mapping (rdReg : Nat) :
    boardRevCode rdReg =
      RD_GPIO_PIN rdReg BOARD_REV_GPIO_PIN_1 + 2 * RD_GPIO_PIN rdReg BOARD_REV_GPIO_PIN_2 ∧
    boardRevLabel (boardRevCode rdReg) =
      some (match RD_GPIO_PIN rdReg BOARD_REV_GPIO_PIN_1,
                  RD_GPIO_PIN rdReg BOARD_REV_GPIO_PIN_2 with
            | 0, 0 => BoardRev.D
            | 1, 0 => BoardRev.B
            | 0, 1 => BoardRev.C
            | _, _ => BoardRev.A) := by
  have h1 : RD_GPIO_PIN rdReg BOARD_REV_GPIO_PIN_1 ≤ 1 := by
    unfold RD_GPIO_PIN
    rw [Nat.and_one_is_mod]
    omega
  have h2 : RD_GPIO_PIN rdReg BOARD_REV_GPIO_PIN_2 ≤ 1 := by
    unfold RD_GPIO_PIN
    rw [Nat.and_one_is_mod]
    omega
  have hcode : boardRevCode rdReg =
      RD_GPIO_PIN rdReg BOARD_REV_GPIO_PIN_1 + 2 * RD_GPIO_PIN rdReg BOARD_REV_GPIO_PIN_2 := by
    unfold boardRevCode
    rw [Nat.shiftLeft_eq]
    ring
  refine ⟨hcode, ?_⟩
  have e1 : RD_GPIO_PIN rdReg BOARD_REV_GPIO_PIN_1 = 0 ∨
      RD_GPIO_PIN rdReg BOARD_REV_GPIO_PIN_1 = 1 := by omega
  have e2 : RD_GPIO_PIN rdReg BOARD_REV_GPIO_PIN_2 = 0 ∨
      RD_GPIO_PIN rdReg BOARD_REV_GPIO_PIN_2 = 1 := by omega
  rcases e1 with e1 | e1 <;> rcases e2 with e2 | e2 <;> rw [hcode, e1, e2] <;> rfl

/-- C5 (the code at the failing input): when mapping the register window
fails (`gpio_port` null), `main` still calls `_print_board_rev_info`, which
performs the two board-revision pin reads through the never-initialised
read-register pointer — the reads are not skipped. -/
theorem c5_board_rev_read_not_skipped :
    Act.readPin BOARD_REV_GPIO_PIN_1 ∈ (mainRun ⟨false, 0, none, none, neverSet, neverSet⟩).1 ∧
    Act.readPin BOARD_REV_GPIO_PIN_2 ∈ (mainRun ⟨false, 0, none, none, neverSet, neverSet⟩).1 := by
  decide

theorem countFrees_append (l1 l2 : List Act) :
    countFrees (l1 ++ l2) = countFrees l1 + countFrees l2 := by
  induction l1 with
  | nil => simp [countFrees]
  | cons a rest ih =>
      match a with
      | Act.freeBuffer => simp [countFrees, ih]; omega
      | Act.gpioWrite e => simp [countFrees, ih]
      | Act.configPin p o => simp [countFrees, ih]
      | Act.readPin p => simp [countFrees, ih]
      | Act.allocBuffer n => simp [countFrees, ih]
      | Act.unmapWindow => simp [countFrees, ih]
      | Act.message m => simp [countFrees, ih]

theorem countAllocs_append (l1 l2 : List Act) :
    countAllocs (l1 ++ l2) = countAllocs l1 + countAllocs l2 := by
  induction l1 with
  | nil => simp [countAllocs]
  | cons a rest ih =>
      match a with
      | Act.allocBuffer n => simp [countAllocs, ih]; omega
      | Act.gpioWrite e => simp [countAllocs, ih]
      | Act.configPin p o => simp [countAllocs, ih]
      | Act.readPin p => simp [countAllocs, ih]
      | Act.freeBuffer => simp [countAllocs, ih]
      | Act.unmapWindow => simp [countAllocs, ih]
      | Act.message m => simp [countAllocs, ih]

theorem countFrees_gpioWrites (evs : List GpioEvent) :
    countFrees (evs.map Act.gpioWrite) = 0 := by
  induction evs with
  | nil => simp [countFrees]
  | cons e rest ih => simp [countFrees, ih]

theorem countAllocs_gpioWrites (evs : List GpioEvent) :
    countAllocs (evs.map Act.gpioWrite) = 0 := by
  induction evs with
  | nil => simp [countAllocs]
  | cons e rest ih => simp [countAllocs, ih]

/-- C9: the process exit code is 0 for every environment; and in the
scenario where FPGA1's bitstream loads but FPGA2's file cannot be opened,
the run performs exactly one allocation and exactly one free (FPGA1's
buffer — no free of a never-allocated FPGA2 buffer), still unmaps the
register window, and reports the FPGA2 open failure. -/
theorem c9_exit_and_cleanup :
    (∀ env : Env, (mainRun env).2 = 0) ∧
    (∀ (bs1 : List Nat) (rdv : Nat) (f1 f2 : Nat → Bool),
      countAllocs (mainRun ⟨true, rdv, some bs1, none, f1, f2⟩).1 = 1 ∧
      countFrees (mainRun ⟨true, rdv, some bs1, none, f1, f2⟩).1 = 1 ∧
      Act.unmapWindow ∈ (mainRun ⟨true, rdv, some bs1, none, f1, f2⟩).1 ∧
      Act.message Msg.cantOpenFpga2 ∈ (mainRun ⟨true, rdv, some bs1, none, f1, f2⟩).1) := by
  refine ⟨fun env => rfl, ?_⟩
  intro bs1 rdv f1 f2
  rcases hb : boardRevLabel (boardRevCode rdv) with _ | r <;>
    refine ⟨?_, ?_, ?_, ?_⟩ <;>
    simp [mainRun, _open_and_setup_gpio, _print_board_rev_info, _config_fpga1,
      _config_fpga2, _close_gpio, hb, countAllocs, countFrees,
      countFrees_append, countAllocs_append, countFrees_gpioWrites,
      countAllocs_gpioWrites]

/-! ### Bit-field lemmas for the register file -/

theorem testBit_mask32 (i : Nat) : Nat.testBit mask32 i = decide (i < 32) := by
  rw [show mask32 = 2 ^ 32 - 1 from rfl, Nat.testBit_two_pow_sub_one]

theorem testBit_seven (i : Nat) : Nat.testBit 7 i = decide (i < 3) := by
  rw [show (7 : Nat) = 2 ^ 3 - 1 from rfl, Nat.testBit_two_pow_sub_one]

theorem testBit_three (i : Nat) : Nat.testBit 3 i = decide (i < 2) := by
  rw [show (3 : Nat) = 2 ^ 2 - 1 from rfl, Nat.testBit_two_pow_sub_one]

theorem testBit_one_idx (i : Nat) : Nat.testBit 1 i = decide (0 = i) := by
  rw [show (1 : Nat) = 2 ^ 0 from rfl, Nat.testBit_two_pow]

/-- Clearing a 3-bit field with `&= ~(7 << s)` leaves that field zero. -/
theorem field_and_not_self (r s : Nat) (hs : s + 3 ≤ 32) :
    ((r &&& (mask32 ^^^ (7 <<< s))) >>> s) &&& 7 = 0 := by
  apply Nat.eq_of_testBit_eq
  intro i
  by_cases hi : i < 3
  · have h32 : s + i < 32 := by omega
    simp [Nat.testBit_and, Nat.testBit_shiftRight, Nat.testBit_xor,
      Nat.testBit_shiftLeft, testBit_mask32, testBit_seven, hi, h32,
      Nat.le_add_right]
  · simp [Nat.testBit_and, Nat.testBit_shiftRight, testBit_seven, hi]

/-- Clearing the 3-bit field at `s` does not change the 3-bit field at a
disjoint offset `t` (for register values below `2 ^ 32`). -/
theorem field_and_not_other (r s t : Nat) (hr : r < 2 ^ 32)
    (hdisj : ∀ i : Nat, i < 3 → t + i < s ∨ s + 3 ≤ t + i) :
    ((r &&& (mask32 ^^^ (7 <<< s))) >>> t) &&& 7 = (r >>> t) &&& 7 := by
  apply Nat.eq_of_testBit_eq
  intro i
  by_cases hi : i < 3
  · by_cases hj : t + i < 32
    · have hmid : (decide (s ≤ t + i) && decide (t + i - s < 3)) = false := by
        rcases hdisj i hi with h | h <;> simp <;> omega
      simp only [Nat.testBit_and, Nat.testBit_shiftRight, Nat.testBit_xor,
        Nat.testBit_shiftLeft, testBit_mask32, testBit_seven, ge_iff_le]
      rw [hmid]
      simp [hi, hj]
    · have hrb : r.testBit (t + i) = false :=
        Nat.testBit_lt_two_pow
          (lt_of_lt_of_le hr (Nat.pow_le_pow_right (by omega) (by omega)))
      simp [Nat.testBit_and, Nat.testBit_shiftRight, hrb]
  · simp [Nat.testBit_and, Nat.testBit_shiftRight, testBit_seven, hi]

/-- ORing `1 << s` into a register ORs 1 into the 3-bit field at `s`. -/
theorem field_or_self (r s : Nat) :
    ((r ||| (1 <<< s)) >>> s) &&& 7 = ((r >>> s) &&& 7) ||| 1 := by
  apply Nat.eq_of_testBit_eq
  intro i
  by_cases hi0 : i = 0
  · subst hi0
    simp [Nat.testBit_or, Nat.testBit_and, Nat.testBit_shiftRight,
      Nat.testBit_shiftLeft, testBit_seven, testBit_one_idx, Nat.le_add_right]
  · have hi0' : ¬(0 = i) := fun h => hi0 (Eq.symm h)
    by_cases hi : i < 3 <;>
      simp [Nat.testBit_or, Nat.testBit_and, Nat.testBit_shiftRight,
        Nat.testBit_shiftLeft, testBit_seven, testBit_one_idx, hi,
        Nat.le_add_right, hi0']

/-- ORing `1 << s` into a register does not change the 3-bit field at a
disjoint offset `t`. -/
theorem field_or_other (r s t : Nat)
    (hdisj : ∀ i : Nat, i < 3 → t + i ≠ s) :
    ((r ||| (1 <<< s)) >>> t) &&& 7 = (r >>> t) &&& 7 := by
  apply Nat.eq_of_testBit_eq
  intro i
  by_cases hi : i < 3
  · have hmid : (decide (s ≤ t + i) && Nat.testBit 1 (t + i - s)) = false := by
      rw [testBit_one_idx]
      have := hdisj i hi
      simp
      omega
    simp only [Nat.testBit_or, Nat.testBit_and, Nat.testBit_shiftRight,
      Nat.testBit_shiftLeft, testBit_seven, ge_iff_le]
    rw [hmid]
    simp [hi]
  · simp [Nat.testBit_or, Nat.testBit_and, Nat.testBit_shiftRight,
      Nat.testBit_shiftLeft, testBit_seven, hi]

/-- Clearing the 2-bit pull field with `&= ~(3 << b)` and then ORing in
`1 << b` leaves the field at exactly 1 (pull-up). -/
theorem pull_clear_then_set (x b : Nat) (hb : b + 2 ≤ 32) :
    (((x &&& (mask32 ^^^ (3 <<< b))) ||| (1 <<< b)) >>> b) &&& 3 = 1 := by
  apply Nat.eq_of_testBit_eq
  intro i
  by_cases hi0 : i = 0
  · subst hi0
    have h32 : b + 0 < 32 := by omega
    simp [Nat.testBit_or, Nat.testBit_and, Nat.testBit_shiftRight,
      Nat.testBit_shiftLeft, Nat.testBit_xor, testBit_mask32, testBit_three,
      testBit_one_idx, h32, Nat.le_add_right]
  · by_cases hi : i < 2
    · have hi1 : i = 1 := by omega
      subst hi1
      have h32 : b + 1 < 32 := by omega
      simp [Nat.testBit_or, Nat.testBit_and, Nat.testBit_shiftRight,
        Nat.testBit_shiftLeft, Nat.testBit_xor, testBit_mask32, testBit_three,
        testBit_one_idx, h32, Nat.le_add_right]
    · have hi0' : ¬(0 = i) := fun h => hi0 (Eq.symm h)
      simp [Nat.testBit_or, Nat.testBit_and, Nat.testBit_shiftRight,
        Nat.testBit_shiftLeft, Nat.testBit_xor, testBit_three,
        testBit_one_idx, hi, hi0']

/-! ### Claim theorems: the Pin Controller -/

/-- C7 counterexample: configuring a pin as input-with-pull-up leaves the
pin's pull-control field at the pull-up code (1), not cleared back to
neutral (0) — the source clears first and then sets, ending at pull-up. -/
theorem c7_pull_neutral_cex :
    pullField (_init_gpio_pin BOARD_REV_GPIO_PIN_1 false (fun _ => 0)) BOARD_REV_GPIO_PIN_1 ≠ 0 := by
  decide

/-- C7 (amended): `configure(pin, InputPullUp)` leaves the pin's 3-bit
function-select field at the input code (0) without altering the
function-select field of any other pin in the same register, and drives
the pin's pull-control field to the pull-up code (1) — by clearing it and
then setting its low bit — leaving it at pull-up, not back at neutral. -/
theorem c7_input_pullup (pin : Nat) (regs : Regs)
    (hr : ∀ i : Nat, regs i < 2 ^ 32) :
    fselField (_init_gpio_pin pin false regs) pin = 0 ∧
    (∀ q : Nat, q / 10 = pin / 10 → q ≠ pin →
      fselField (_init_gpio_pin pin false regs) q = fselField regs q) ∧
    pullField (_init_gpio_pin pin false regs) pin = 1 := by
  have hoff : pin / 10 ≠ pullRegOffset pin := by
    unfold pullRegOffset GPIO_PULL_BASE_OFFSET
    omega
  have hoff2 : pullRegOffset pin ≠ pin / 10 := Ne.symm hoff
  have hval : _init_gpio_pin pin false regs (pin / 10) =
      regs (pin / 10) &&& (mask32 ^^^ (7 <<< (pin % 10 * 3))) := by
    simp [_init_gpio_pin, updateReg, hoff]
  have hoffval : _init_gpio_pin pin false regs (pullRegOffset pin) =
      (regs (pullRegOffset pin) &&& (mask32 ^^^ (3 <<< pullBitsOffset pin))) |||
        (1 <<< pullBitsOffset pin) := by
    simp [_init_gpio_pin, updateReg, hoff2]
  refine ⟨?_, ?_, ?_⟩
  · unfold fselField
    rw [hval]
    exact field_and_not_self _ _ (by omega)
  · intro q hqdiv hqne
    unfold fselField
    rw [hqdiv, hval]
    exact field_and_not_other _ _ _ (hr _) (fun i hi => by omega)
  · unfold pullField
    rw [hoffval]
    refine pull_clear_then_set _ _ ?_
    unfold pullBitsOffset
    omega

theorem c7_input_pullup_witness :
    fselField (_init_gpio_pin 20 false (fun _ => 0)) 20 = 0 ∧
    pullField (_init_gpio_pin 20 false (fun _ => 0)) 20 = 1 :=
  ⟨(c7_input_pullup 20 (fun _ => 0) (fun _ => (by decide : (0 : Nat) < 2 ^ 32))).1,
   (c7_input_pullup 20 (fun _ => 0) (fun _ => (by decide : (0 : Nat) < 2 ^ 32))).2.2⟩

/-- C8 counterexample: `configure(pin, Output)` only ORs the low bit into
the function-select field, so with a prior field value of 2 (binary 010)
the field ends at 3 (binary 011), not at the output code 1 (binary 001). -/
theorem c8_output_or_cex :
    fselField (_init_gpio_pin 0 true (fun j => if j = 0 then 2 else 0)) 0 ≠ 1 := by
  decide

/-- C8 (amended): `configure(pin, Output)` ORs 1 into the pin's 3-bit
function-select field (so the field becomes the output code 001 exactly
when it previously held the input code 000), leaving the function-select
fields of all other pins in the same register unchanged. -/
theorem c8_output_fsel (pin : Nat) (regs : Regs) :
    fselField (_init_gpio_pin pin true regs) pin = fselField regs pin ||| 1 ∧
    (fselField regs pin = 0 → fselField (_init_gpio_pin pin true regs) pin = 1) ∧
    (∀ q : Nat, q / 10 = pin / 10 → q ≠ pin →
      fselField (_init_gpio_pin pin true regs) q = fselField regs q) := by
  have hval : _init_gpio_pin pin true regs (pin / 10) =
      regs (pin / 10) ||| (1 <<< (pin % 10 * 3)) := by
    simp [_init_gpio_pin, updateReg]
  have h1 : fselField (_init_gpio_pin pin true regs) pin = fselField regs pin ||| 1 := by
    unfold fselField
    rw [hval]
    exact field_or_self _ _
  refine ⟨h1, ?_, ?_⟩
  · intro h0
    rw [h1, h0]
    decide
  · intro q hqdiv hqne
    unfold fselField
    rw [hqdiv, hval]
    exact field_or_other _ _ _ (fun i hi => by omega)

theorem c8_output_fsel_witness :
    fselField (_init_gpio_pin 17 true (fun _ => 0)) 17 = fselField (fun _ => 0) 17 ||| 1 ∧
    fselField (_init_gpio_pin 17 true (fun _ => 0)) 17 = 1 :=
  ⟨(c8_output_fsel 17 (fun _ => 0)).1, (c8_output_fsel 17 (fun _ => 0)).2.1 (by decide)⟩
